import Mathlib

/-!
Shallow embedding of the voxel-carving core of the repository
(`src/voxeling.py` and `src/processing.py`), together with theorems settling
the specification claims.

Numpy 2-D arrays are embedded as lists of rows over `ℚ`; numpy float
arithmetic is idealized as exact rational arithmetic.  Where the float
pipeline produces non-finite values (division by a zero perspective divisor)
the embedding uses `Option`: `none` stands for the `inf`/`nan` value whose
integer cast can never pass the later image-bounds tests.  For the
frame-effect claims a small mutable-array store is embedded explicitly, with
one store cell per numpy array and the source's allocation/in-place-mutation
pattern reproduced step by step.
-/

namespace Voxel

/-- Matrix: a numpy 2-D float array as a list of rows. -/
abbrev Mat : Type := List (List ℚ)

/-- Embedding of `ndarray.min()` for a 1-D array (value on the empty array is
junk; numpy raises there, and every use is guarded by non-emptiness). -/
def listMin : List ℚ → ℚ
  | [] => 0
  | x :: xs => xs.foldl min x

/-- Embedding of `ndarray.max()` for a 1-D array. -/
def listMax : List ℚ → ℚ
  | [] => 0
  | x :: xs => xs.foldl max x

/-- Embedding of `np.round(...).astype(int)` on one finite entry: round to
nearest integer with ties to even (the IEEE rounding numpy uses). -/
def npRound (q : ℚ) : ℤ :=
  if q - ⌊q⌋ < 1/2 then ⌊q⌋
  else if 1/2 < q - ⌊q⌋ then ⌊q⌋ + 1
  else if ⌊q⌋ % 2 = 0 then ⌊q⌋ else ⌊q⌋ + 1

/-- Dot product of two rational vectors (truncating to the shorter). -/
def dot (u v : List ℚ) : ℚ := ((u.zip v).map (fun p => p.1 * p.2)).sum

/-- Column `j` of a matrix (entries default to `0`; every use is guarded by
shape hypotheses keeping `j` in range). -/
def colAt (A : Mat) (j : ℕ) : List ℚ := A.map (fun r => r.getD j 0)

/-- Number of columns of a 2-D array, `shape[1]` (length of the first row). -/
def colsCount (A : Mat) : ℕ := (A.headD []).length

/-- Embedding of the matrix product `A @ B`: entry `(r, j)` is the dot product
of row `r` of `A` with column `j` of `B`. -/
def matmulQ (A B : Mat) : Mat :=
  A.map (fun arow => (List.range (colsCount B)).map (fun j => dot arow (colAt B j)))

/-- Embedding of `voxeling.get_pixel_points`:
`points_2d = ppm @ points`, then the in-place `points_2d /= points_2d[-1, :]`
(every row divided elementwise by the last row), then
`np.round(points_2d).astype(int)`.  An entry over a zero divisor becomes
`none` (the `inf`/`nan` whose `astype(int)` result always fails the
half-open image-bounds tests downstream). -/
def get_pixel_points (ppm : Mat) (points : Mat) : List (List (Option ℤ)) :=
  let points_2d := matmulQ ppm points
  let w := points_2d.getLastD []
  points_2d.map (fun row =>
    (row.zip w).map (fun p => if p.2 = 0 then none else some (npRound (p.1 / p.2))))

/-- Flattened `x` output of `np.meshgrid(arange S, arange S, arange S)` with
the default `xy` indexing: the entry at flat position `(i, j, k)` is `j`. -/
def meshX (S : ℕ) : List ℚ :=
  (List.range S).flatMap (fun _ => (List.range S).flatMap (fun j => List.replicate S (j : ℚ)))

/-- Flattened `y` output of the mesh grid: entry at `(i, j, k)` is `i`. -/
def meshY (S : ℕ) : List ℚ :=
  (List.range S).flatMap (fun i => (List.range S).flatMap (fun _ => List.replicate S (i : ℚ)))

/-- Flattened `z` output of the mesh grid: entry at `(i, j, k)` is `k`. -/
def meshZ (S : ℕ) : List ℚ :=
  (List.range S).flatMap (fun _ => (List.range S).flatMap
    (fun _ => (List.range S).map (fun k : ℕ => (k : ℚ))))

/-- Embedding of `voxeling._min_max_scale`: affine remap sending the observed
minimum of the array to `min_value` and the observed maximum to `max_value`. -/
def min_max_scale (arr : List ℚ) (min_value max_value : ℚ) : List ℚ :=
  arr.map (fun v =>
    min_value + (v - listMin arr) * (max_value - min_value) / (listMax arr - listMin arr))

/-- Embedding of `voxeling.get_voxel_grid_points`: mesh grid of `S³` index
triples, each axis rescaled into its world range, stacked with a row of ones
into a `4 × S³` homogeneous coordinate matrix. -/
def get_voxel_grid_points (mesh_grid_size : ℕ)
    (x_min x_max y_min y_max z_min z_max : ℚ) : Mat :=
  let x := min_max_scale (meshX mesh_grid_size) x_min x_max
  let y := min_max_scale (meshY mesh_grid_size) y_min y_max
  let z := min_max_scale (meshZ mesh_grid_size) z_min z_max
  [x, y, z, List.replicate x.length 1]

/-- Vote of one voxel point in one view, given the mask, the frame dimensions
and the rounded pixel coordinates: `1` when the point passes the half-open
bounds tests and its mask entry is truthy, else the `np.zeros` value `0`.
A `none` coordinate (zero perspective divisor) never passes the bounds test. -/
def voteAt (img : List (List Bool)) (W H : ℕ) : Option ℤ → Option ℤ → ℚ
  | some px, some py =>
    if 0 ≤ px ∧ px < (W : ℤ) ∧ 0 ≤ py ∧ py < (H : ℤ) then
      (if (img.getD py.toNat []).getD px.toNat false then 1 else 0)
    else 0
  | _, _ => 0

/-- Embedding of `voxeling.get_voxel_points_projection_is_in_images_mask`.
Masks are boolean 2-D arrays (the source casts the looked-up values with
`astype(bool)`); `zip` pairs the projection matrices with the masks exactly as
the source loop does, and the final `np.vstack` on an empty list raises,
embedded as `Except.error`. -/
def get_voxel_points_projection_is_in_images_mask
    (images_masks : List (List (List Bool))) (ppms : List Mat)
    (voxel_points : Mat) : Except String (List (List ℚ)) :=
  let rows := (ppms.zip images_masks).map (fun pm =>
    let img := pm.2
    let image_width := (img.headD []).length
    let image_height := img.length
    let points_2d := get_pixel_points pm.1 voxel_points
    let pxs := points_2d.getD 0 []
    let pys := points_2d.getD 1 []
    (pxs.zip pys).map (fun p => voteAt img image_width image_height p.1 p.2))
  if rows.isEmpty then Except.error "need at least one array to concatenate"
  else Except.ok rows

/-- Embedding of `voxeling.get_voxel_points_occupancy`
(`np.sum(..., axis=0)`): entry `j` is the sum of column `j` over all rows. -/
def get_voxel_points_occupancy (voxel_points_in_masks : List (List ℚ)) : List ℚ :=
  (List.range (colsCount voxel_points_in_masks)).map
    (fun j => (voxel_points_in_masks.map (fun r => r.getD j 0)).sum)

/-- Embedding of `voxeling.get_voxel_points_by_minimum_occupancy`
(`voxel_points[:, occupancy >= min_occupancy]`): every row keeps exactly the
entries at column indices whose occupancy meets the threshold. -/
def get_voxel_points_by_minimum_occupancy (voxel_points : Mat)
    (occupancy : List ℚ) (min_occupancy : ℚ) : Mat :=
  voxel_points.map (fun row =>
    ((row.zip occupancy).filter (fun p => min_occupancy ≤ p.2)).map Prod.fst)

/-- Column indices whose occupancy meets the threshold, in increasing order
(used to state which columns the boolean-mask selection keeps). -/
def keptIdx (occupancy : List ℚ) (min_occupancy : ℚ) : List ℕ :=
  (List.range occupancy.length).filter (fun j => min_occupancy ≤ occupancy.getD j 0)

/-- Number of vote rows in a voter result (`0` for the raising case). -/
def rowCount : Except String (List (List ℚ)) → ℕ
  | Except.error _ => 0
  | Except.ok rows => rows.length

/-- Truth of a voter result: whether the call returned instead of raising. -/
def isOkResult : Except String (List (List ℚ)) → Bool
  | Except.error _ => false
  | Except.ok _ => true

/-- Specification-level vote of a single voxel column in a single view:
project the one homogeneous point through the projection matrix, divide by
the third component, round, bounds-test against the mask dimensions and look
the mask up.  Used to state that every vote entry depends only on its own
column, mask and matrix. -/
def voteOfColumn (img : List (List Bool)) (ppm : Mat) (col : List ℚ) : ℚ :=
  let u := dot (ppm.getD 0 []) col
  let v := dot (ppm.getD 1 []) col
  let w := dot (ppm.getD 2 []) col
  if w = 0 then 0
  else
    let px := npRound (u / w)
    let py := npRound (v / w)
    if 0 ≤ px ∧ px < (((img.headD []).length : ℕ) : ℤ) ∧ 0 ≤ py ∧ py < ((img.length : ℕ) : ℤ) then
      (if (img.getD py.toNat []).getD px.toNat false then 1 else 0)
    else 0

/-- Pixel of a 3-channel image. -/
abbrev Pix : Type := List ℚ

/-- Image: the numpy shape width together with the list of pixel rows (the
explicit width keeps the embedding faithful for arrays with zero rows, whose
numpy shape still records a width). -/
abbrev ImgA : Type := ℕ × List (List Pix)

/-- Embedding of `processing.get_cropped_images`: dimensions are read from the
first image and every image is sliced `img[top:H-bottom, left:W-right]`
(a slice `[a:b]` is drop `a` then take `b - a`, its python meaning under the
in-range offset hypotheses of the claims). -/
def get_cropped_images (images : List ImgA) (top bottom left right : ℕ) :
    List ImgA :=
  if images.length = 0 then images
  else
    let image_height := (images.headD (0, [])).2.length
    let image_width := (images.headD (0, [])).1
    images.map (fun img =>
      (image_width - right - left,
        ((img.2.drop top).take (image_height - bottom - top)).map
          (fun row => (row.drop left).take (image_width - right - left))))

/-- Embedding of `processing.get_images_to_original_dimensions`
(`cv.copyMakeBorder` with `BORDER_CONSTANT` black value): pads each image with
`top`/`bottom` full-width black rows and `left`/`right` black pixels per row. -/
def get_images_to_original_dimensions (images : List ImgA)
    (top bottom left right : ℕ) : List ImgA :=
  images.map (fun img =>
    (left + img.1 + right,
      List.replicate top (List.replicate (left + img.1 + right) ([0, 0, 0] : Pix))
        ++ img.2.map (fun row =>
              List.replicate left ([0, 0, 0] : Pix) ++ row
                ++ List.replicate right ([0, 0, 0] : Pix))
        ++ List.replicate bottom (List.replicate (left + img.1 + right) ([0, 0, 0] : Pix))))

/-- Mutable-array store: one cell per numpy array, identified by position. -/
abbrev Store : Type := List Mat

/-- Allocation of a fresh array: returns the new store and the fresh id. -/
def allocA (σ : Store) (a : Mat) : Store × ℕ := (σ ++ [a], σ.length)

/-- Read of the array at an id. -/
def readA (σ : Store) (i : ℕ) : Mat := σ.getD i []

/-- In-place overwrite of the array at an id. -/
def writeA (σ : Store) (i : ℕ) (a : Mat) : Store := σ.set i a

/-- Value of the in-place `points_2d /= points_2d[-1, :]`: every row divided
elementwise by the last row. -/
def perspDivide (m : Mat) : Mat :=
  let w := m.getLastD []
  m.map (fun row => (row.zip w).map (fun p => p.1 / p.2))

/-- Value of `np.round(...).astype(int)`, stored back as (integral) rationals. -/
def roundMat (m : Mat) : Mat :=
  m.map (fun row => row.map (fun q => ((npRound q : ℤ) : ℚ)))

/-- Stateful embedding of `get_pixel_points`: `ppm @ points` allocates a fresh
array, the `/=` mutates that fresh array in place, and `np.round` allocates
the returned array.  The voxel-grid argument is an id into the store; the
projection matrix is passed by value (it is only read). -/
def get_pixel_points_prog (σ : Store) (ppm : Mat) (g : ℕ) : Store × ℕ :=
  let a1 := allocA σ (matmulQ ppm (readA σ g))
  let σ2 := writeA a1.1 a1.2 (perspDivide (readA a1.1 a1.2))
  allocA σ2 (roundMat (readA σ2 a1.2))

/-- Vote-row values recomputed from a rational mask array and the rounded
pixel array (mask truthiness is `astype(bool)`, i.e. nonzero; the pixel
entries are integral because `roundMat` produced them, so `⌊⌋` reads them
back exactly). -/
def voteValuesQ (img : Mat) (P : Mat) : List ℚ :=
  let W := (img.headD []).length
  let H := img.length
  ((P.getD 0 []).zip (P.getD 1 [])).map (fun p =>
    let px := ⌊p.1⌋
    let py := ⌊p.2⌋
    if 0 ≤ px ∧ px < (W : ℤ) ∧ 0 ≤ py ∧ py < (H : ℤ) then
      (if (img.getD py.toNat []).getD px.toNat 0 ≠ 0 then 1 else 0)
    else 0)

/-- One iteration of the voter loop in the stateful embedding: project (which
allocates and mutates only fresh arrays), allocate the `np.zeros` vote row,
then write the in-mask votes into that fresh row.  The mask argument is an id
into the store (masks are only read). -/
def vote_prog_step (σ : Store) (g : ℕ) (ppm : Mat) (m : ℕ) : Store × ℕ :=
  let pr := get_pixel_points_prog σ ppm g
  let az := allocA pr.1 [List.replicate (colsCount (readA pr.1 pr.2)) 0]
  let σ3 := writeA az.1 az.2 [voteValuesQ (readA az.1 m) (readA az.1 pr.2)]
  (σ3, az.2)

/-- Stateful embedding of the voter loop over all `(ppm, mask)` pairs. -/
def voter_prog (σ : Store) (maskIds : List ℕ) (ppms : List Mat) (g : ℕ) :
    Store × List ℕ :=
  (ppms.zip maskIds).foldl
    (fun acc pm =>
      let st := vote_prog_step acc.1 g pm.1 pm.2
      (st.1, acc.2 ++ [st.2]))
    (σ, [])

/-- Iterated voter calls on the same store (the "any number of calls" of the
frame-effect claim). -/
def voter_prog_iter (maskIds : List ℕ) (ppms : List Mat) (g : ℕ) :
    ℕ → Store → Store
  | 0, σ => σ
  | Nat.succ n, σ => voter_prog_iter maskIds ppms g n (voter_prog σ maskIds ppms g).1

/-! Helper lemmas about minima and maxima of lists. -/

theorem foldl_min_mem (xs : List ℚ) (x : ℚ) : xs.foldl min x ∈ x :: xs := by
  induction xs generalizing x with
  | nil => simp
  | cons y ys ih =>
    have h := ih (min x y)
    simp only [List.foldl_cons]
    rcases List.mem_cons.mp h with h1 | h1
    · rcases min_choice x y with hc | hc <;> rw [h1, hc] <;> simp
    · simp [h1]

theorem foldl_min_le_init (xs : List ℚ) (x : ℚ) : xs.foldl min x ≤ x := by
  induction xs generalizing x with
  | nil => simp
  | cons y ys ih =>
    simp only [List.foldl_cons]
    exact le_trans (ih (min x y)) (min_le_left x y)

theorem foldl_min_le (xs : List ℚ) (x a : ℚ) (ha : a ∈ x :: xs) :
    xs.foldl min x ≤ a := by
  induction xs generalizing x with
  | nil =>
    simp only [List.mem_singleton] at ha
    simp [ha]
  | cons y ys ih =>
    simp only [List.foldl_cons]
    rcases List.mem_cons.mp ha with h1 | h1
    · exact le_trans (foldl_min_le_init ys (min x y)) (by simp [h1])
    · rcases List.mem_cons.mp h1 with h2 | h2
      · exact le_trans (foldl_min_le_init ys (min x y)) (by simp [h2])
      · exact ih (min x y) (List.mem_cons_of_mem _ h2)

theorem foldl_max_mem (xs : List ℚ) (x : ℚ) : xs.foldl max x ∈ x :: xs := by
  induction xs generalizing x with
  | nil => simp
  | cons y ys ih =>
    have h := ih (max x y)
    simp only [List.foldl_cons]
    rcases List.mem_cons.mp h with h1 | h1
    · rcases max_choice x y with hc | hc <;> rw [h1, hc] <;> simp
    · simp [h1]

theorem le_foldl_max_init (xs : List ℚ) (x : ℚ) : x ≤ xs.foldl max x := by
  induction xs generalizing x with
  | nil => simp
  | cons y ys ih =>
    simp only [List.foldl_cons]
    exact le_trans (le_max_left x y) (ih (max x y))

theorem le_foldl_max (xs : List ℚ) (x a : ℚ) (ha : a ∈ x :: xs) :
    a ≤ xs.foldl max x := by
  induction xs generalizing x with
  | nil =>
    simp only [List.mem_singleton] at ha
    simp [ha]
  | cons y ys ih =>
    simp only [List.foldl_cons]
    rcases List.mem_cons.mp ha with h1 | h1
    · exact le_trans (by simp [h1]) (le_foldl_max_init ys (max x y))
    · rcases List.mem_cons.mp h1 with h2 | h2
      · exact le_trans (by simp [h2]) (le_foldl_max_init ys (max x y))
      · exact ih (max x y) (List.mem_cons_of_mem _ h2)

theorem listMin_mem {l : List ℚ} (h : l ≠ []) : listMin l ∈ l := by
  cases l with
  | nil => exact absurd rfl h
  | cons x xs => exact foldl_min_mem xs x

theorem listMin_le {l : List ℚ} {a : ℚ} (ha : a ∈ l) : listMin l ≤ a := by
  cases l with
  | nil => cases ha
  | cons x xs => exact foldl_min_le xs x a ha

theorem listMax_mem {l : List ℚ} (h : l ≠ []) : listMax l ∈ l := by
  cases l with
  | nil => exact absurd rfl h
  | cons x xs => exact foldl_max_mem xs x

theorem le_listMax {l : List ℚ} {a : ℚ} (ha : a ∈ l) : a ≤ listMax l := by
  cases l with
  | nil => cases ha
  | cons x xs => exact le_foldl_max xs x a ha

theorem listMin_map_mono {f : ℚ → ℚ} (hf : Monotone f) {l : List ℚ}
    (hl : l ≠ []) : listMin (l.map f) = f (listMin l) := by
  have hml : l.map f ≠ [] := by simpa using hl
  apply le_antisymm
  · exact listMin_le (List.mem_map_of_mem f (listMin_mem hl))
  · obtain ⟨a, ha, hfa⟩ := List.mem_map.mp (listMin_mem hml)
    rw [← hfa]
    exact hf (listMin_le ha)

theorem listMax_map_mono {f : ℚ → ℚ} (hf : Monotone f) {l : List ℚ}
    (hl : l ≠ []) : listMax (l.map f) = f (listMax l) := by
  have hml : l.map f ≠ [] := by simpa using hl
  apply le_antisymm
  · obtain ⟨a, ha, hfa⟩ := List.mem_map.mp (listMax_mem hml)
    rw [← hfa]
    exact hf (le_listMax ha)
  · exact le_listMax (List.mem_map_of_mem f (listMax_mem hl))

/-! Helper lemmas about rounding. -/

theorem npRound_nearest (q : ℚ) : |(npRound q : ℚ) - q| ≤ 1/2 := by
  have h0 : (⌊q⌋ : ℚ) ≤ q := Int.floor_le q
  have h1 : q < (⌊q⌋ : ℚ) + 1 := Int.lt_floor_add_one q
  unfold npRound
  split
  · rw [abs_le]; constructor <;> linarith
  · split
    · rw [abs_le]; push_cast; constructor <;> linarith
    · split
      · rw [abs_le]; constructor <;> linarith
      · rw [abs_le]; push_cast; constructor <;> linarith

theorem npRound_intCast (n : ℤ) : npRound (n : ℚ) = n := by
  unfold npRound
  rw [Int.floor_intCast]
  norm_num

theorem npRound_zero : npRound 0 = 0 := by
  have := npRound_intCast 0
  norm_num at this
  exact this

theorem npRound_one : npRound 1 = 1 := by
  have := npRound_intCast 1
  norm_num at this
  exact this

/-! Helper lemmas about the mesh grid. -/

theorem length_flatMap_const {α β : Type} (l : List α) (f : α → List β) (n : ℕ)
    (h : ∀ a ∈ l, (f a).length = n) : (l.flatMap f).length = l.length * n := by
  induction l with
  | nil => simp
  | cons x xs ih =>
    rw [List.flatMap_cons, List.length_append, h x (by simp),
      ih (fun a ha => h a (List.mem_cons_of_mem _ ha)), List.length_cons]
    ring

theorem length_meshX (S : ℕ) : (meshX S).length = S ^ 3 := by
  rw [meshX, length_flatMap_const _ _ (S * S) (fun a _ => by
    rw [length_flatMap_const _ _ S (fun j _ => by simp), List.length_range]),
    List.length_range]
  ring

theorem length_meshY (S : ℕ) : (meshY S).length = S ^ 3 := by
  rw [meshY, length_flatMap_const _ _ (S * S) (fun i _ => by
    rw [length_flatMap_const _ _ S (fun j _ => by simp), List.length_range]),
    List.length_range]
  ring

theorem length_meshZ (S : ℕ) : (meshZ S).length = S ^ 3 := by
  rw [meshZ, length_flatMap_const _ _ (S * S) (fun a _ => by
    rw [length_flatMap_const _ _ S (fun j _ => by simp), List.length_range]),
    List.length_range]
  ring

theorem mem_meshX_bound {S : ℕ} {a : ℚ} (ha : a ∈ meshX S) :
    ∃ j : ℕ, j < S ∧ a = (j : ℚ) := by
  rw [meshX] at ha
  obtain ⟨i, hi, h1⟩ := List.mem_flatMap.mp ha
  obtain ⟨j, hj, h2⟩ := List.mem_flatMap.mp h1
  exact ⟨j, List.mem_range.mp hj, (List.eq_of_mem_replicate h2)⟩

theorem mem_meshY_bound {S : ℕ} {a : ℚ} (ha : a ∈ meshY S) :
    ∃ j : ℕ, j < S ∧ a = (j : ℚ) := by
  rw [meshY] at ha
  obtain ⟨i, hi, h1⟩ := List.mem_flatMap.mp ha
  obtain ⟨j, hj, h2⟩ := List.mem_flatMap.mp h1
  exact ⟨i, List.mem_range.mp hi, (List.eq_of_mem_replicate h2)⟩

theorem mem_meshZ_bound {S : ℕ} {a : ℚ} (ha : a ∈ meshZ S) :
    ∃ j : ℕ, j < S ∧ a = (j : ℚ) := by
  rw [meshZ] at ha
  obtain ⟨i, hi, h1⟩ := List.mem_flatMap.mp ha
  obtain ⟨j, hj, h2⟩ := List.mem_flatMap.mp h1
  obtain ⟨k, hk, hke⟩ := List.mem_map.mp h2
  exact ⟨k, List.mem_range.mp hk, hke.symm⟩

theorem cast_mem_meshX {S j : ℕ} (hj : j < S) : ((j : ℕ) : ℚ) ∈ meshX S := by
  rw [meshX]
  refine List.mem_flatMap.mpr ⟨0, List.mem_range.mpr (by omega), ?_⟩
  refine List.mem_flatMap.mpr ⟨j, List.mem_range.mpr hj, ?_⟩
  exact List.mem_replicate.mpr ⟨by omega, rfl⟩

theorem cast_mem_meshY {S i : ℕ} (hi : i < S) : ((i : ℕ) : ℚ) ∈ meshY S := by
  rw [meshY]
  refine List.mem_flatMap.mpr ⟨i, List.mem_range.mpr hi, ?_⟩
  refine List.mem_flatMap.mpr ⟨0, List.mem_range.mpr (by omega), ?_⟩
  exact List.mem_replicate.mpr ⟨by omega, rfl⟩

theorem cast_mem_meshZ {S k : ℕ} (hk : k < S) : ((k : ℕ) : ℚ) ∈ meshZ S := by
  rw [meshZ]
  refine List.mem_flatMap.mpr ⟨0, List.mem_range.mpr (by omega), ?_⟩
  refine List.mem_flatMap.mpr ⟨0, List.mem_range.mpr (by omega), ?_⟩
  exact List.mem_map.mpr ⟨k, List.mem_range.mpr hk, rfl⟩

theorem mesh_min_max {l : List ℚ} {S : ℕ} (_hS : 1 ≤ S)
    (hmem : ∀ a ∈ l, ∃ j : ℕ, j < S ∧ a = (j : ℚ))
    (h0 : (0 : ℚ) ∈ l) (htop : ((S - 1 : ℕ) : ℚ) ∈ l) :
    listMin l = 0 ∧ listMax l = ((S - 1 : ℕ) : ℚ) := by
  have hne : l ≠ [] := List.ne_nil_of_mem h0
  constructor
  · refine le_antisymm (listMin_le h0) ?_
    obtain ⟨j, _, hj⟩ := hmem _ (listMin_mem hne)
    rw [hj]
    positivity
  · refine le_antisymm ?_ (le_listMax htop)
    obtain ⟨j, hjS, hj⟩ := hmem _ (listMax_mem hne)
    rw [hj]
    exact_mod_cast Nat.le_sub_one_of_lt hjS

theorem scale_monotone {a b mn mx : ℚ} (hab : a < b) (hmm : mn ≤ mx) :
    Monotone (fun v => mn + (v - a) * (mx - mn) / (b - a)) := by
  intro v w hvw
  have hba : (0 : ℚ) < b - a := by linarith
  have hd : (0 : ℚ) ≤ mx - mn := by linarith
  simp only []
  have h1 : (v - a) * (mx - mn) ≤ (w - a) * (mx - mn) :=
    mul_le_mul_of_nonneg_right (by linarith) hd
  have h2 : (v - a) * (mx - mn) / (b - a) ≤ (w - a) * (mx - mn) / (b - a) :=
    div_le_div_of_nonneg_right h1 (le_of_lt hba)
  linarith

theorem min_max_scale_bounds (l : List ℚ) (mn mx : ℚ)
    (hl : listMin l < listMax l) (h : mn < mx) :
    listMin (min_max_scale l mn mx) = mn ∧
      listMax (min_max_scale l mn mx) = mx ∧
      (min_max_scale l mn mx).length = l.length := by
  have hne : l ≠ [] := by
    intro e
    rw [e] at hl
    simp [listMin, listMax] at hl
  have hmono := scale_monotone hl (le_of_lt h)
  have hd : listMax l - listMin l ≠ 0 := by
    intro e
    apply absurd hl
    simp only [not_lt]
    linarith [sub_eq_zero.mp e]
  refine ⟨?_, ?_, by simp [min_max_scale]⟩
  · rw [min_max_scale, listMin_map_mono hmono hne]
    simp
  · rw [min_max_scale, listMax_map_mono hmono hne]
    field_simp

/-! Claim C3: shape and bounds of the voxel grid. -/

/-- Claim C3: for every grid size `S ≥ 2` and per-axis ranges with
`min < max`, the grid builder returns a `4 × S³` matrix (all four rows of
length `S³`) whose fourth row is all ones and whose three coordinate rows
attain exactly the caller-supplied bounds as their minimum and maximum. -/
theorem C3_buildGrid_shape_and_bounds (S : ℕ) (hS : 2 ≤ S)
    (x_min x_max y_min y_max z_min z_max : ℚ)
    (hx : x_min < x_max) (hy : y_min < y_max) (hz : z_min < z_max) :
    (get_voxel_grid_points S x_min x_max y_min y_max z_min z_max).length = 4 ∧
    (∀ row ∈ get_voxel_grid_points S x_min x_max y_min y_max z_min z_max,
      row.length = S ^ 3) ∧
    (∀ c ∈ (get_voxel_grid_points S x_min x_max y_min y_max z_min z_max).getD 3 [],
      c = 1) ∧
    listMin ((get_voxel_grid_points S x_min x_max y_min y_max z_min z_max).getD 0 [])
      = x_min ∧
    listMax ((get_voxel_grid_points S x_min x_max y_min y_max z_min z_max).getD 0 [])
      = x_max ∧
    listMin ((get_voxel_grid_points S x_min x_max y_min y_max z_min z_max).getD 1 [])
      = y_min ∧
    listMax ((get_voxel_grid_points S x_min x_max y_min y_max z_min z_max).getD 1 [])
      = y_max ∧
    listMin ((get_voxel_grid_points S x_min x_max y_min y_max z_min z_max).getD 2 [])
      = z_min ∧
    listMax ((get_voxel_grid_points S x_min x_max y_min y_max z_min z_max).getD 2 [])
      = z_max := by
  have hS1 : 1 ≤ S := by omega
  have hX := mesh_min_max hS1 (fun a ha => mem_meshX_bound ha)
    (by simpa using cast_mem_meshX (by omega : 0 < S))
    (cast_mem_meshX (by omega : S - 1 < S))
  have hY := mesh_min_max hS1 (fun a ha => mem_meshY_bound ha)
    (by simpa using cast_mem_meshY (by omega : 0 < S))
    (cast_mem_meshY (by omega : S - 1 < S))
  have hZ := mesh_min_max hS1 (fun a ha => mem_meshZ_bound ha)
    (by simpa using cast_mem_meshZ (by omega : 0 < S))
    (cast_mem_meshZ (by omega : S - 1 < S))
  have htop : (0 : ℚ) < ((S - 1 : ℕ) : ℚ) := by
    have : 1 ≤ S - 1 := by omega
    exact_mod_cast Nat.lt_of_lt_of_le Nat.zero_lt_one this
  have hXb := min_max_scale_bounds (meshX S) x_min x_max (by rw [hX.1, hX.2]; exact htop) hx
  have hYb := min_max_scale_bounds (meshY S) y_min y_max (by rw [hY.1, hY.2]; exact htop) hy
  have hZb := min_max_scale_bounds (meshZ S) z_min z_max (by rw [hZ.1, hZ.2]; exact htop) hz
  refine ⟨by simp [get_voxel_grid_points], ?_, ?_, ?_, ?_, ?_, ?_, ?_, ?_⟩
  · intro row hrow
    simp only [get_voxel_grid_points, List.mem_cons, List.not_mem_nil, or_false] at hrow
    rcases hrow with rfl | rfl | rfl | rfl
    · rw [hXb.2.2, length_meshX]
    · rw [hYb.2.2, length_meshY]
    · rw [hZb.2.2, length_meshZ]
    · rw [List.length_replicate, hXb.2.2, length_meshX]
  · intro c hc
    have he : (get_voxel_grid_points S x_min x_max y_min y_max z_min z_max).getD 3 []
        = List.replicate (min_max_scale (meshX S) x_min x_max).length 1 := rfl
    rw [he] at hc
    exact List.eq_of_mem_replicate hc
  · simpa [get_voxel_grid_points] using hXb.1
  · simpa [get_voxel_grid_points] using hXb.2.1
  · simpa [get_voxel_grid_points] using hYb.1
  · simpa [get_voxel_grid_points] using hYb.2.1
  · simpa [get_voxel_grid_points] using hZb.1
  · simpa [get_voxel_grid_points] using hZb.2.1

/-- Witness for C3 at grid size 2 and unit ranges. -/
theorem C3_buildGrid_shape_and_bounds_witness :
    (2 ≤ 2 ∧ (0 : ℚ) < 1) ∧
    ((get_voxel_grid_points 2 0 1 0 1 0 1).length = 4 ∧
    (∀ row ∈ get_voxel_grid_points 2 0 1 0 1 0 1, row.length = 2 ^ 3) ∧
    (∀ c ∈ (get_voxel_grid_points 2 0 1 0 1 0 1).getD 3 [], c = 1) ∧
    listMin ((get_voxel_grid_points 2 0 1 0 1 0 1).getD 0 []) = 0 ∧
    listMax ((get_voxel_grid_points 2 0 1 0 1 0 1).getD 0 []) = 1 ∧
    listMin ((get_voxel_grid_points 2 0 1 0 1 0 1).getD 1 []) = 0 ∧
    listMax ((get_voxel_grid_points 2 0 1 0 1 0 1).getD 1 []) = 1 ∧
    listMin ((get_voxel_grid_points 2 0 1 0 1 0 1).getD 2 []) = 0 ∧
    listMax ((get_voxel_grid_points 2 0 1 0 1 0 1).getD 2 []) = 1) :=
  ⟨⟨le_refl 2, by norm_num⟩,
    C3_buildGrid_shape_and_bounds 2 (le_refl 2) 0 1 0 1 0 1
      (by norm_num) (by norm_num) (by norm_num)⟩

/-! Helper lemmas for indexed access. -/

theorem getD_range_map {α : Type} (g : ℕ → α) (M j : ℕ) (hj : j < M) (d : α) :
    ((List.range M).map g).getD j d = g j := by
  rw [List.getD_eq_getElem _ _ (by simpa using hj)]
  simp

theorem getD_zip_map {α β γ : Type} (f : α × β → γ) (u : List α) (v : List β)
    (j : ℕ) (d : γ) (du : α) (dv : β) (hu : j < u.length) (hv : j < v.length) :
    ((u.zip v).map f).getD j d = f (u.getD j du, v.getD j dv) := by
  have hz : j < ((u.zip v).map f).length := by
    simp only [List.length_map, List.length_zip]
    omega
  rw [List.getD_eq_getElem u du hu, List.getD_eq_getElem v dv hv,
    List.getD_eq_getElem _ _ hz]
  simp [List.getElem_zip]

/-! Structure of the projected pixel matrix. -/

theorem get_pixel_points_cons_eq (p0 p1 p2 : List ℚ) (B : Mat) :
    get_pixel_points [p0, p1, p2] B =
      [(((List.range (colsCount B)).map (fun j => dot p0 (colAt B j))).zip
          ((List.range (colsCount B)).map (fun j => dot p2 (colAt B j)))).map
          (fun p => if p.2 = 0 then none else some (npRound (p.1 / p.2))),
       (((List.range (colsCount B)).map (fun j => dot p1 (colAt B j))).zip
          ((List.range (colsCount B)).map (fun j => dot p2 (colAt B j)))).map
          (fun p => if p.2 = 0 then none else some (npRound (p.1 / p.2))),
       (((List.range (colsCount B)).map (fun j => dot p2 (colAt B j))).zip
          ((List.range (colsCount B)).map (fun j => dot p2 (colAt B j)))).map
          (fun p => if p.2 = 0 then none else some (npRound (p.1 / p.2)))] := rfl

theorem pixel_rows_length (p0 p1 p2 : List ℚ) (B : Mat) :
    (get_pixel_points [p0, p1, p2] B).length = 3 ∧
      ∀ row ∈ get_pixel_points [p0, p1, p2] B, row.length = colsCount B := by
  rw [get_pixel_points_cons_eq]
  refine ⟨rfl, ?_⟩
  intro row hrow
  rcases List.mem_cons.mp hrow with rfl | hrow
  · simp [List.length_zip]
  rcases List.mem_cons.mp hrow with rfl | hrow
  · simp [List.length_zip]
  rcases List.mem_cons.mp hrow with rfl | hrow
  · simp [List.length_zip]
  · cases hrow

theorem pixel_entry (p0 p1 p2 : List ℚ) (B : Mat) {i : ℕ} (hi : i < colsCount B) :
    ((get_pixel_points [p0, p1, p2] B).getD 0 []).getD i none
        = (if dot p2 (colAt B i) = 0 then none
           else some (npRound (dot p0 (colAt B i) / dot p2 (colAt B i)))) ∧
    ((get_pixel_points [p0, p1, p2] B).getD 1 []).getD i none
        = (if dot p2 (colAt B i) = 0 then none
           else some (npRound (dot p1 (colAt B i) / dot p2 (colAt B i)))) ∧
    ((get_pixel_points [p0, p1, p2] B).getD 2 []).getD i none
        = (if dot p2 (colAt B i) = 0 then none
           else some (npRound (dot p2 (colAt B i) / dot p2 (colAt B i)))) := by
  rw [get_pixel_points_cons_eq]
  simp only [List.getD_cons_zero, List.getD_cons_succ]
  refine ⟨?_, ?_, ?_⟩ <;>
  · rw [List.getD_eq_getElem _ none (by simpa using hi)]
    simp [List.getElem_zip]

/-! Claim C2: the projector. -/

/-- Claim C2 counterexample: at a concrete projection matrix and a single
voxel point, `get_pixel_points` returns a matrix with 3 rows — not the 2×M
matrix the claim states (the source rounds and returns all three rows of the
perspective-divided product, the third being the divided divisor row). -/
theorem C2_project_counterexample :
    (get_pixel_points [[1,0,0,0],[0,1,0,0],[0,0,1,0]] [[3],[4],[1],[1]]).length = 3 ∧
    (get_pixel_points [[1,0,0,0],[0,1,0,0],[0,0,1,0]] [[3],[4],[1],[1]]).length ≠ 2 := by
  have h : (get_pixel_points [[1,0,0,0],[0,1,0,0],[0,0,1,0]] [[3],[4],[1],[1]]).length = 3 := rfl
  exact ⟨h, by omega⟩

/-- Claim C2 (amended): for every 3×4 projection matrix (given by its three
rows) and point matrix whose per-column perspective divisor is nonzero,
`get_pixel_points` returns a 3×M integer matrix: rows 0 and 1 hold the
rounded perspective-divided pixel coordinates (each within 1/2 of the exact
quotient, i.e. a nearest integer), and row 2 is identically `some 1` (the
divisor row divided by itself). -/
theorem C2_project_divide_round (p0 p1 p2 : List ℚ) (B : Mat)
    (hw : ∀ i < colsCount B, dot p2 (colAt B i) ≠ 0) :
    (get_pixel_points [p0, p1, p2] B).length = 3 ∧
    (∀ row ∈ get_pixel_points [p0, p1, p2] B, row.length = colsCount B) ∧
    (∀ i, i < colsCount B →
      ((get_pixel_points [p0, p1, p2] B).getD 0 []).getD i none
          = some (npRound (dot p0 (colAt B i) / dot p2 (colAt B i))) ∧
      ((get_pixel_points [p0, p1, p2] B).getD 1 []).getD i none
          = some (npRound (dot p1 (colAt B i) / dot p2 (colAt B i))) ∧
      ((get_pixel_points [p0, p1, p2] B).getD 2 []).getD i none = some 1 ∧
      |(npRound (dot p0 (colAt B i) / dot p2 (colAt B i)) : ℚ)
          - dot p0 (colAt B i) / dot p2 (colAt B i)| ≤ 1/2 ∧
      |(npRound (dot p1 (colAt B i) / dot p2 (colAt B i)) : ℚ)
          - dot p1 (colAt B i) / dot p2 (colAt B i)| ≤ 1/2) := by
  refine ⟨(pixel_rows_length p0 p1 p2 B).1, (pixel_rows_length p0 p1 p2 B).2, ?_⟩
  intro i hi
  obtain ⟨h0, h1, h2⟩ := pixel_entry p0 p1 p2 B hi
  rw [if_neg (hw i hi)] at h0 h1
  rw [if_neg (hw i hi), div_self (hw i hi)] at h2
  refine ⟨h0, h1, ?_, npRound_nearest _, npRound_nearest _⟩
  rw [h2]
  have : npRound 1 = 1 := by
    have := npRound_intCast 1
    norm_num at this
    exact this
  rw [this]

/-- Witness for the amended C2 at the identity-like projection of one point. -/
theorem C2_project_divide_round_witness :
    (∀ i < colsCount [[3],[4],[1],[1]],
      dot [0,0,1,0] (colAt [[3],[4],[1],[1]] i) ≠ 0) ∧
    ((get_pixel_points [[1,0,0,0],[0,1,0,0],[0,0,1,0]] [[3],[4],[1],[1]]).length = 3 ∧
    (∀ row ∈ get_pixel_points [[1,0,0,0],[0,1,0,0],[0,0,1,0]] [[3],[4],[1],[1]],
      row.length = colsCount [[3],[4],[1],[1]]) ∧
    (∀ i, i < colsCount [[3],[4],[1],[1]] →
      ((get_pixel_points [[1,0,0,0],[0,1,0,0],[0,0,1,0]] [[3],[4],[1],[1]]).getD 0 []).getD i none
          = some (npRound (dot [1,0,0,0] (colAt [[3],[4],[1],[1]] i)
              / dot [0,0,1,0] (colAt [[3],[4],[1],[1]] i))) ∧
      ((get_pixel_points [[1,0,0,0],[0,1,0,0],[0,0,1,0]] [[3],[4],[1],[1]]).getD 1 []).getD i none
          = some (npRound (dot [0,1,0,0] (colAt [[3],[4],[1],[1]] i)
              / dot [0,0,1,0] (colAt [[3],[4],[1],[1]] i))) ∧
      ((get_pixel_points [[1,0,0,0],[0,1,0,0],[0,0,1,0]] [[3],[4],[1],[1]]).getD 2 []).getD i none
          = some 1 ∧
      |(npRound (dot [1,0,0,0] (colAt [[3],[4],[1],[1]] i)
          / dot [0,0,1,0] (colAt [[3],[4],[1],[1]] i)) : ℚ)
          - dot [1,0,0,0] (colAt [[3],[4],[1],[1]] i)
              / dot [0,0,1,0] (colAt [[3],[4],[1],[1]] i)| ≤ 1/2 ∧
      |(npRound (dot [0,1,0,0] (colAt [[3],[4],[1],[1]] i)
          / dot [0,0,1,0] (colAt [[3],[4],[1],[1]] i)) : ℚ)
          - dot [0,1,0,0] (colAt [[3],[4],[1],[1]] i)
              / dot [0,0,1,0] (colAt [[3],[4],[1],[1]] i)| ≤ 1/2)) := by
  have hw : ∀ i < colsCount [[3],[4],[1],[1]],
      dot [0,0,1,0] (colAt ([[3],[4],[1],[1]] : Mat) i) ≠ 0 := by
    intro i hi
    have hc : colsCount ([[3],[4],[1],[1]] : Mat) = 1 := rfl
    rw [hc] at hi
    have h0 : i = 0 := by omega
    subst h0
    norm_num [dot, colAt]
  exact ⟨hw, C2_project_divide_round [1,0,0,0] [0,1,0,0] [0,0,1,0] [[3],[4],[1],[1]] hw⟩

/-! Claim C4: occupancy filtering. -/

theorem filter_zip_eq_keptIdx (t : ℚ) (occ : List ℚ) : ∀ r : List ℚ,
    r.length = occ.length →
    ((r.zip occ).filter (fun p => t ≤ p.2)).map Prod.fst
      = ((List.range occ.length).filter (fun j => t ≤ occ.getD j 0)).map
          (fun j => r.getD j 0) := by
  induction occ with
  | nil =>
    intro r h
    cases r with
    | nil => simp
    | cons x xs => simp at h
  | cons o os ih =>
    intro r h
    cases r with
    | nil => simp at h
    | cons x xs =>
      have h' : xs.length = os.length := by simpa using h
      simp only [List.length_cons]
      rw [List.range_succ_eq_map]
      by_cases hto : t ≤ o
      · simp only [List.zip_cons_cons, List.filter_cons, decide_eq_true_eq, hto, if_true,
          List.map_cons, List.getD_cons_zero, List.filter_map, List.map_map,
          Function.comp_def, List.getD_cons_succ]
        rw [ih xs h']
      · simp only [List.zip_cons_cons, List.filter_cons, decide_eq_true_eq, hto, if_false,
          List.map_cons, List.getD_cons_zero, List.filter_map, List.map_map,
          Function.comp_def, List.getD_cons_succ]
        rw [ih xs h']

theorem filtered_row_sublist (r occ : List ℚ) (t : ℚ) (h : r.length = occ.length) :
    (((r.zip occ).filter (fun p => t ≤ p.2)).map Prod.fst).Sublist r := by
  have h1 : ((r.zip occ).filter (fun p => t ≤ p.2)).Sublist (r.zip occ) :=
    List.filter_sublist _
  have h2 := h1.map Prod.fst
  rwa [List.map_fst_zip r occ (le_of_eq h)] at h2

/-- Claim C4: filtering by minimum occupancy keeps, in every row of the voxel
matrix, exactly the entries at column indices whose occupancy count meets the
threshold — i.e. the columns with count `≥ minOccupancy` in their original
relative order — and each returned row is a sublist (order-preserving
subsequence) of the corresponding input row. -/
theorem C4_filterByMinimumOccupancy (G : Mat) (occ : List ℚ) (t : ℚ)
    (hG : ∀ r ∈ G, r.length = occ.length) :
    get_voxel_points_by_minimum_occupancy G occ t
      = G.map (fun r => (keptIdx occ t).map (fun j => r.getD j 0)) ∧
    ∀ r ∈ G, (((r.zip occ).filter (fun p => t ≤ p.2)).map Prod.fst).Sublist r := by
  constructor
  · rw [get_voxel_points_by_minimum_occupancy, keptIdx]
    exact List.map_congr_left (fun r hr => filter_zip_eq_keptIdx t occ r (hG r hr))
  · intro r hr
    exact filtered_row_sublist r occ t (hG r hr)

/-- Witness for C4 on a concrete 4×3 grid and occupancy vector. -/
theorem C4_filterByMinimumOccupancy_witness :
    (∀ r ∈ ([[1,2,3],[4,5,6],[7,8,9],[1,1,1]] : Mat), r.length = ([0,2,1] : List ℚ).length) ∧
    (get_voxel_points_by_minimum_occupancy [[1,2,3],[4,5,6],[7,8,9],[1,1,1]] [0,2,1] 1
      = ([[1,2,3],[4,5,6],[7,8,9],[1,1,1]] : Mat).map
          (fun r => (keptIdx [0,2,1] 1).map (fun j => r.getD j 0)) ∧
    ∀ r ∈ ([[1,2,3],[4,5,6],[7,8,9],[1,1,1]] : Mat),
      (((r.zip ([0,2,1] : List ℚ)).filter (fun p => (1:ℚ) ≤ p.2)).map Prod.fst).Sublist r) := by
  have hG : ∀ r ∈ ([[1,2,3],[4,5,6],[7,8,9],[1,1,1]] : Mat),
      r.length = ([0,2,1] : List ℚ).length := by
    intro r hr
    rcases List.mem_cons.mp hr with rfl | hr
    · rfl
    rcases List.mem_cons.mp hr with rfl | hr
    · rfl
    rcases List.mem_cons.mp hr with rfl | hr
    · rfl
    rcases List.mem_cons.mp hr with rfl | hr
    · rfl
    · cases hr
  exact ⟨hG, C4_filterByMinimumOccupancy [[1,2,3],[4,5,6],[7,8,9],[1,1,1]] [0,2,1] 1 hG⟩

/-! Claim C8: aggregation is order-independent. -/

/-- Claim C8: for vote matrices whose rows all have length `M`, aggregating a
permuted sequence of vote rows yields the same occupancy array (column sums
are invariant under permutation of the rows). -/
theorem C8_aggregate_perm_invariant (votes votes' : List (List ℚ)) (M : ℕ)
    (hM : ∀ r ∈ votes, r.length = M) (hperm : votes.Perm votes') :
    get_voxel_points_occupancy votes = get_voxel_points_occupancy votes' := by
  cases votes with
  | nil =>
    have h : votes' = [] := hperm.symm.eq_nil
    rw [h]
  | cons r rs =>
    have hne' : votes' ≠ [] := by
      intro e
      rw [e] at hperm
      simpa using hperm.length_eq
    obtain ⟨r', rs', rfl⟩ := List.exists_cons_of_ne_nil hne'
    have hr : r.length = M := hM r (by simp)
    have hr' : r'.length = M := hM r' (hperm.mem_iff.mpr (List.mem_cons_self r' rs'))
    unfold get_voxel_points_occupancy colsCount
    simp only [List.headD_cons]
    rw [hr, hr']
    refine List.map_congr_left (fun j _ => ?_)
    exact (hperm.map (fun rr : List ℚ => rr.getD j 0)).sum_eq

/-- Witness for C8 on two concrete vote rows swapped. -/
theorem C8_aggregate_perm_invariant_witness :
    (∀ r ∈ ([[1,0],[0,1]] : List (List ℚ)), r.length = 2) ∧
    ([[1,0],[0,1]] : List (List ℚ)).Perm [[0,1],[1,0]] ∧
    get_voxel_points_occupancy [[1,0],[0,1]]
      = get_voxel_points_occupancy [[0,1],[1,0]] := by
  have hM : ∀ r ∈ ([[1,0],[0,1]] : List (List ℚ)), r.length = 2 := by
    intro r hr
    rcases List.mem_cons.mp hr with rfl | hr
    · rfl
    rcases List.mem_cons.mp hr with rfl | hr
    · rfl
    · cases hr
  have hp : ([[1,0],[0,1]] : List (List ℚ)).Perm [[0,1],[1,0]] := List.Perm.swap _ _ _
  exact ⟨hM, hp, C8_aggregate_perm_invariant _ _ 2 hM hp⟩

/-! Structure of the voter output. -/

theorem voter_rows_eq (masks : List (List (List Bool))) (ppms : List Mat) (G : Mat)
    (votes : List (List ℚ))
    (hok : get_voxel_points_projection_is_in_images_mask masks ppms G = Except.ok votes) :
    votes = (ppms.zip masks).map (fun pm =>
      (((get_pixel_points pm.1 G).getD 0 []).zip ((get_pixel_points pm.1 G).getD 1 [])).map
        (fun p => voteAt pm.2 (pm.2.headD []).length pm.2.length p.1 p.2)) := by
  simp only [get_voxel_points_projection_is_in_images_mask] at hok
  split at hok
  · exact absurd hok (by simp)
  · simpa using hok.symm

theorem voteAt_zero_or_one (img : List (List Bool)) (W H : ℕ) (a b : Option ℤ) :
    voteAt img W H a b = 0 ∨ voteAt img W H a b = 1 := by
  rcases a with _ | px
  · left; rfl
  rcases b with _ | py
  · left; rfl
  · rw [show voteAt img W H (some px) (some py)
        = if 0 ≤ px ∧ px < (W : ℤ) ∧ 0 ≤ py ∧ py < (H : ℤ) then
            (if (img.getD py.toNat []).getD px.toNat false then 1 else 0)
          else 0 from rfl]
    split_ifs <;> simp

theorem eq_three_rows (p : Mat) (hp : p.length = 3) :
    p = [p.getD 0 [], p.getD 1 [], p.getD 2 []] := by
  rcases p with _ | ⟨a, p⟩
  · simp at hp
  rcases p with _ | ⟨b, p⟩
  · simp at hp
  rcases p with _ | ⟨c, p⟩
  · simp at hp
  rcases p with _ | ⟨d, p⟩
  · rfl
  · simp at hp

theorem voter_entry_eq (img : List (List Bool)) (p : Mat) (hp : p.length = 3) (G : Mat)
    {i : ℕ} (hi : i < colsCount G) :
    ((((get_pixel_points p G).getD 0 []).zip ((get_pixel_points p G).getD 1 [])).map
      (fun q => voteAt img (img.headD []).length img.length q.1 q.2)).getD i 0
    = voteOfColumn img p (colAt G i) := by
  rw [eq_three_rows p hp]
  rw [getD_zip_map _ _ _ i 0 none none
    (by simp [get_pixel_points_cons_eq, List.length_zip]; omega)
    (by simp [get_pixel_points_cons_eq, List.length_zip]; omega)]
  rw [(pixel_entry _ _ _ G hi).1, (pixel_entry _ _ _ G hi).2.1]
  rw [voteOfColumn]
  simp only [List.getD_cons_zero, List.getD_cons_succ]
  by_cases hw : dot (p.getD 2 []) (colAt G i) = 0
  · rw [if_pos hw, if_pos hw, if_pos hw]
    rfl
  · rw [if_neg hw, if_neg hw, if_neg hw]
    rfl

theorem getD_map_zip {α β γ : Type} (f : α × β → γ) (u : List α) (v : List β)
    (j : ℕ) (d : γ) (hu : j < u.length) (hv : j < v.length) :
    ((u.zip v).map f).getD j d = f (u[j], v[j]) := by
  have hz : j < ((u.zip v).map f).length := by
    simp only [List.length_map, List.length_zip]
    omega
  rw [List.getD_eq_getElem _ _ hz]
  simp [List.getElem_zip]

theorem voter_entry (masks : List (List (List Bool))) (ppms : List Mat) (G : Mat)
    (votes : List (List ℚ))
    (hok : get_voxel_points_projection_is_in_images_mask masks ppms G = Except.ok votes)
    (hshape : ∀ p ∈ ppms, p.length = 3)
    {v i : ℕ} (hv1 : v < ppms.length) (hv2 : v < masks.length) (hi : i < colsCount G) :
    (votes.getD v []).getD i 0
      = voteOfColumn (masks.getD v []) (ppms.getD v []) (colAt G i) := by
  rw [voter_rows_eq masks ppms G votes hok]
  rw [getD_map_zip _ ppms masks v [] hv1 hv2]
  rw [List.getD_eq_getElem masks [] hv2, List.getD_eq_getElem ppms [] hv1]
  simp only []
  exact voter_entry_eq (masks[v]) (ppms[v])
    (hshape _ (List.getElem_mem hv1)) G hi

theorem getD_of_zero_or_one {r : List ℚ} (h : ∀ x ∈ r, x = 0 ∨ x = 1) (j : ℕ) :
    0 ≤ r.getD j 0 ∧ r.getD j 0 ≤ 1 := by
  by_cases hj : j < r.length
  · rw [List.getD_eq_getElem r 0 hj]
    rcases h _ (List.getElem_mem hj) with he | he <;> rw [he] <;> norm_num
  · have hz : r.getD j 0 = 0 := by
      simp [List.getD_eq_getElem?_getD, List.getElem?_eq_none (le_of_not_lt hj)]
    rw [hz]
    norm_num

/-! Claim C5: vote values and occupancy bounds. -/

/-- Claim C5: whenever the voter returns a vote matrix, every individual vote
is 0 or 1, and every entry of the aggregated occupancy array lies between 0
and the number `N` of vote rows. -/
theorem C5_votes_and_occupancy_bounds (masks : List (List (List Bool))) (ppms : List Mat)
    (G : Mat) (votes : List (List ℚ))
    (hok : get_voxel_points_projection_is_in_images_mask masks ppms G = Except.ok votes) :
    (∀ row ∈ votes, ∀ x ∈ row, x = 0 ∨ x = 1) ∧
    (∀ c ∈ get_voxel_points_occupancy votes, 0 ≤ c ∧ c ≤ (votes.length : ℚ)) := by
  have hall : ∀ row ∈ votes, ∀ x ∈ row, x = 0 ∨ x = 1 := by
    intro row hrow x hx
    rw [voter_rows_eq masks ppms G votes hok] at hrow
    obtain ⟨pm, _, rfl⟩ := List.mem_map.mp hrow
    obtain ⟨q, _, rfl⟩ := List.mem_map.mp hx
    exact voteAt_zero_or_one _ _ _ _ _
  refine ⟨hall, ?_⟩
  intro c hc
  unfold get_voxel_points_occupancy at hc
  obtain ⟨j, _, rfl⟩ := List.mem_map.mp hc
  have hterm : ∀ y ∈ votes.map (fun r => r.getD j 0), 0 ≤ y ∧ y ≤ 1 := by
    intro y hy
    obtain ⟨r, hr, rfl⟩ := List.mem_map.mp hy
    exact getD_of_zero_or_one (hall r hr) j
  constructor
  · exact List.sum_nonneg (fun y hy => (hterm y hy).1)
  · have h := List.sum_le_card_nsmul (votes.map (fun r => r.getD j 0)) 1
      (fun y hy => (hterm y hy).2)
    simpa [nsmul_eq_mul] using h

/-- Witness for C5: one all-true 1×1 mask, identity-like projection, one
voxel point projecting to pixel (0,0); the voter returns the vote matrix
`[[1]]`. -/
theorem C5_votes_and_occupancy_bounds_witness :
    get_voxel_points_projection_is_in_images_mask [[[true]]]
      [[[1,0,0,0],[0,1,0,0],[0,0,1,0]]] [[0],[0],[1],[1]] = Except.ok [[1]] ∧
    ((∀ row ∈ ([[1]] : List (List ℚ)), ∀ x ∈ row, x = 0 ∨ x = 1) ∧
     (∀ c ∈ get_voxel_points_occupancy [[1]],
        0 ≤ c ∧ c ≤ ((([[1]] : List (List ℚ)).length : ℚ)))) := by
  have hok : get_voxel_points_projection_is_in_images_mask [[[true]]]
      [[[1,0,0,0],[0,1,0,0],[0,0,1,0]]] [[0],[0],[1],[1]] = Except.ok [[1]] := by
    norm_num [get_voxel_points_projection_is_in_images_mask, get_pixel_points, matmulQ,
      dot, colAt, colsCount, voteAt, List.range_succ, npRound_zero, npRound_one]
  exact ⟨hok, C5_votes_and_occupancy_bounds _ _ _ _ hok⟩

/-! Claim C1: the per-voxel voting rule. -/

/-- Claim C1: for a mask, a 3×4 projection matrix (given by rows) and a voxel
grid, the vote of voxel `i` (whose perspective divisor is nonzero, so that its
rounded pixel projection `(px, py)` exists) is `1` iff `0 ≤ px < W`,
`0 ≤ py < H` and the mask at `(py, px)` is true; every out-of-frame point
votes `0` (the half-open bound excludes `px = W` and `py = H`), and an
in-frame point over a false mask entry votes `0`. -/
theorem C1_voter_vote_rule (img : List (List Bool)) (p0 p1 p2 : List ℚ) (G : Mat)
    {i : ℕ} (hi : i < colsCount G)
    (hw : dot p2 (colAt G i) ≠ 0) :
    ∃ row : List ℚ,
      get_voxel_points_projection_is_in_images_mask [img] [[p0, p1, p2]] G
        = Except.ok [row] ∧
      ∀ px py : ℤ,
        px = npRound (dot p0 (colAt G i) / dot p2 (colAt G i)) →
        py = npRound (dot p1 (colAt G i) / dot p2 (colAt G i)) →
        ((row.getD i 0 = 1 ↔
          (0 ≤ px ∧ px < ((img.headD []).length : ℤ) ∧ 0 ≤ py ∧ py < (img.length : ℤ) ∧
            (img.getD py.toNat []).getD px.toNat false = true)) ∧
        (¬(0 ≤ px ∧ px < ((img.headD []).length : ℤ) ∧ 0 ≤ py ∧ py < (img.length : ℤ)) →
          row.getD i 0 = 0) ∧
        ((0 ≤ px ∧ px < ((img.headD []).length : ℤ) ∧ 0 ≤ py ∧ py < (img.length : ℤ)) →
          (img.getD py.toNat []).getD px.toNat false = false →
          row.getD i 0 = 0)) := by
  refine ⟨_, rfl, ?_⟩
  have he : ((((get_pixel_points [p0, p1, p2] G).getD 0 []).zip
        ((get_pixel_points [p0, p1, p2] G).getD 1 [])).map
        (fun q => voteAt img (img.headD []).length img.length q.1 q.2)).getD i 0
      = voteOfColumn img [p0, p1, p2] (colAt G i) :=
    voter_entry_eq img [p0, p1, p2] rfl G hi
  have hv : voteOfColumn img [p0, p1, p2] (colAt G i)
      = if 0 ≤ npRound (dot p0 (colAt G i) / dot p2 (colAt G i)) ∧
            npRound (dot p0 (colAt G i) / dot p2 (colAt G i)) < ((img.headD []).length : ℤ) ∧
            0 ≤ npRound (dot p1 (colAt G i) / dot p2 (colAt G i)) ∧
            npRound (dot p1 (colAt G i) / dot p2 (colAt G i)) < (img.length : ℤ) then
          (if (img.getD (npRound (dot p1 (colAt G i) / dot p2 (colAt G i))).toNat []).getD
              (npRound (dot p0 (colAt G i) / dot p2 (colAt G i))).toNat false then 1 else 0)
        else 0 := by
    rw [voteOfColumn]
    simp only [List.getD_cons_zero, List.getD_cons_succ]
    rw [if_neg hw]
  intro px py hpx hpy
  rw [he, hv, ← hpx, ← hpy]
  by_cases hin : 0 ≤ px ∧ px < ((img.headD []).length : ℤ) ∧ 0 ≤ py ∧ py < (img.length : ℤ)
  · rw [if_pos hin]
    by_cases hm : (img.getD py.toNat []).getD px.toNat false = true
    · rw [if_pos hm]
      refine ⟨?_, ?_, ?_⟩
      · exact ⟨fun _ => ⟨hin.1, hin.2.1, hin.2.2.1, hin.2.2.2, hm⟩, fun _ => rfl⟩
      · intro hc
        exact absurd hin hc
      · intro _ hf
        rw [hm] at hf
        cases hf
    · rw [if_neg hm]
      refine ⟨?_, ?_, ?_⟩
      · constructor
        · intro h0
          norm_num at h0
        · intro hr
          exact absurd hr.2.2.2.2 hm
      · intro hc
        exact absurd hin hc
      · intro _ _
        rfl
  · rw [if_neg hin]
    refine ⟨?_, ?_, ?_⟩
    · constructor
      · intro h0
        norm_num at h0
      · intro hr
        exact absurd ⟨hr.1, hr.2.1, hr.2.2.1, hr.2.2.2.1⟩ hin
    · intro _
      rfl
    · intro hin2 _
      exact absurd hin2 hin

/-- Witness for C1: all-true 1×1 mask, identity-like projection, one voxel
point with unit divisor. -/
theorem C1_voter_vote_rule_witness :
    (0 < colsCount [[0],[0],[1],[1]] ∧
      dot [0,0,1,0] (colAt [[0],[0],[1],[1]] 0) ≠ 0) ∧
    (∃ row : List ℚ,
      get_voxel_points_projection_is_in_images_mask [[[true]]]
        [[[1,0,0,0],[0,1,0,0],[0,0,1,0]]] [[0],[0],[1],[1]] = Except.ok [row] ∧
      ∀ px py : ℤ,
        px = npRound (dot [1,0,0,0] (colAt [[0],[0],[1],[1]] 0)
            / dot [0,0,1,0] (colAt [[0],[0],[1],[1]] 0)) →
        py = npRound (dot [0,1,0,0] (colAt [[0],[0],[1],[1]] 0)
            / dot [0,0,1,0] (colAt [[0],[0],[1],[1]] 0)) →
        ((row.getD 0 0 = 1 ↔
          (0 ≤ px ∧ px < ((([[true]] : List (List Bool)).headD []).length : ℤ) ∧
            0 ≤ py ∧ py < (([[true]] : List (List Bool)).length : ℤ) ∧
            (([[true]] : List (List Bool)).getD py.toNat []).getD px.toNat false = true)) ∧
        (¬(0 ≤ px ∧ px < ((([[true]] : List (List Bool)).headD []).length : ℤ) ∧
            0 ≤ py ∧ py < (([[true]] : List (List Bool)).length : ℤ)) →
          row.getD 0 0 = 0) ∧
        ((0 ≤ px ∧ px < ((([[true]] : List (List Bool)).headD []).length : ℤ) ∧
            0 ≤ py ∧ py < (([[true]] : List (List Bool)).length : ℤ)) →
          (([[true]] : List (List Bool)).getD py.toNat []).getD px.toNat false = false →
          row.getD 0 0 = 0))) := by
  have hi : 0 < colsCount [[0],[0],[1],[1]] := by norm_num [colsCount]
  have hw : dot [0,0,1,0] (colAt [[0],[0],[1],[1]] 0) ≠ 0 := by norm_num [dot, colAt]
  exact ⟨⟨hi, hw⟩,
    C1_voter_vote_rule [[true]] [1,0,0,0] [0,1,0,0] [0,0,1,0] [[0],[0],[1],[1]] hi hw⟩

/-! Claim C6: a zero perspective divisor is contained. -/

/-- Claim C6: when the perspective divisor of voxel `j` under view `v` is
exactly zero, the voter still returns (no abort): it produces one vote row
per view, the affected entry votes `0` (it is treated as not-in-frame), and
every vote entry — in particular every other voxel of view `v` and every
entry of every other view — equals the independent single-column vote
computed from its own mask, matrix and column alone, so the degenerate point
affects nothing else. -/
theorem C6_zero_divisor_contained (masks : List (List (List Bool))) (ppms : List Mat)
    (G : Mat) (hshape : ∀ p ∈ ppms, p.length = 3)
    {v j : ℕ} (hv1 : v < ppms.length) (hv2 : v < masks.length) (hj : j < colsCount G)
    (hw : dot ((ppms.getD v []).getD 2 []) (colAt G j) = 0) :
    ∃ votes, get_voxel_points_projection_is_in_images_mask masks ppms G
        = Except.ok votes ∧
      votes.length = min ppms.length masks.length ∧
      (votes.getD v []).getD j 0 = 0 ∧
      ∀ v' i, v' < ppms.length → v' < masks.length → i < colsCount G →
        (votes.getD v' []).getD i 0
          = voteOfColumn (masks.getD v' []) (ppms.getD v' []) (colAt G i) := by
  have hzip : ppms.zip masks ≠ [] := by
    have : 0 < (ppms.zip masks).length := by
      rw [List.length_zip]
      omega
    exact List.ne_nil_of_length_pos this
  have hok : ∃ votes, get_voxel_points_projection_is_in_images_mask masks ppms G
      = Except.ok votes := by
    simp only [get_voxel_points_projection_is_in_images_mask]
    rw [if_neg (by simpa [List.isEmpty_iff] using hzip)]
    exact ⟨_, rfl⟩
  obtain ⟨votes, hok⟩ := hok
  refine ⟨votes, hok, ?_, ?_, ?_⟩
  · rw [voter_rows_eq _ _ _ _ hok]
    simp [List.length_zip]
  · rw [voter_entry masks ppms G votes hok hshape hv1 hv2 hj]
    rw [voteOfColumn, if_pos hw]
  · intro v' i h1 h2 h3
    exact voter_entry masks ppms G votes hok hshape h1 h2 h3

/-- Witness for C6: one voxel point with zero third coordinate under an
identity-like projection (perspective divisor 0). -/
theorem C6_zero_divisor_contained_witness :
    ((∀ p ∈ ([[[1,0,0,0],[0,1,0,0],[0,0,1,0]]] : List Mat), p.length = 3) ∧
      0 < colsCount [[0],[0],[0],[1]] ∧
      dot ((([[[1,0,0,0],[0,1,0,0],[0,0,1,0]]] : List Mat).getD 0 []).getD 2 [])
        (colAt [[0],[0],[0],[1]] 0) = 0) ∧
    (∃ votes, get_voxel_points_projection_is_in_images_mask [[[true]]]
        [[[1,0,0,0],[0,1,0,0],[0,0,1,0]]] [[0],[0],[0],[1]] = Except.ok votes ∧
      votes.length = min ([[[1,0,0,0],[0,1,0,0],[0,0,1,0]]] : List Mat).length
        ([[[true]]] : List (List (List Bool))).length ∧
      (votes.getD 0 []).getD 0 0 = 0 ∧
      ∀ v' i, v' < ([[[1,0,0,0],[0,1,0,0],[0,0,1,0]]] : List Mat).length →
        v' < ([[[true]]] : List (List (List Bool))).length →
        i < colsCount [[0],[0],[0],[1]] →
        (votes.getD v' []).getD i 0
          = voteOfColumn (([[[true]]] : List (List (List Bool))).getD v' [])
              (([[[1,0,0,0],[0,1,0,0],[0,0,1,0]]] : List Mat).getD v' [])
              (colAt [[0],[0],[0],[1]] i)) := by
  have hshape : ∀ p ∈ ([[[1,0,0,0],[0,1,0,0],[0,0,1,0]]] : List Mat), p.length = 3 := by
    intro p hp
    rcases List.mem_cons.mp hp with rfl | hp
    · rfl
    · cases hp
  have hj : 0 < colsCount [[0],[0],[0],[1]] := by norm_num [colsCount]
  have hw : dot ((([[[1,0,0,0],[0,1,0,0],[0,0,1,0]]] : List Mat).getD 0 []).getD 2 [])
      (colAt [[0],[0],[0],[1]] 0) = 0 := by norm_num [dot, colAt]
  exact ⟨⟨hshape, hj, hw⟩,
    C6_zero_divisor_contained [[[true]]] [[[1,0,0,0],[0,1,0,0],[0,0,1,0]]]
      [[0],[0],[0],[1]] hshape (by norm_num) (by norm_num) hj hw⟩

/-! Claim C7: input validation. -/

/-- Claim C7 counterexample: with two projection matrices and a single mask
(mismatched sequence lengths) the voter neither raises nor detects anything:
it silently truncates the pairing and returns a single vote row. -/
theorem C7_validation_counterexample :
    isOkResult (get_voxel_points_projection_is_in_images_mask [[[true]]]
      [[[1,0,0,0],[0,1,0,0],[0,0,1,0]], [[1,0,0,0],[0,1,0,0],[0,0,1,0]]]
      [[0],[0],[1],[1]]) = true ∧
    rowCount (get_voxel_points_projection_is_in_images_mask [[[true]]]
      [[[1,0,0,0],[0,1,0,0],[0,0,1,0]], [[1,0,0,0],[0,1,0,0],[0,0,1,0]]]
      [[0],[0],[1],[1]]) = 1 := by
  constructor <;> rfl

/-- Claim C7 (amended): no eager validation exists.  The voter pairs masks
with matrices by `zip`, silently truncating a mismatch to the shorter length:
it returns `min` that many vote rows and raises only when the pairing is
empty (the `np.vstack` of an empty list, after the loop).  A grid resolution
of 1 is not rejected either: the builder still returns a 4×1 grid (with
degenerate scaling) rather than raising. -/
theorem C7_no_eager_validation (masks : List (List (List Bool))) (ppms : List Mat)
    (G : Mat) (xm xM ym yM zm zM : ℚ) :
    rowCount (get_voxel_points_projection_is_in_images_mask masks ppms G)
      = min ppms.length masks.length ∧
    (isOkResult (get_voxel_points_projection_is_in_images_mask masks ppms G) = true
      ↔ 0 < min ppms.length masks.length) ∧
    (get_voxel_grid_points 1 xm xM ym yM zm zM).length = 4 ∧
    (∀ row ∈ get_voxel_grid_points 1 xm xM ym yM zm zM, row.length = 1) := by
  have hgrid : ∀ row ∈ get_voxel_grid_points 1 xm xM ym yM zm zM, row.length = 1 := by
    intro row hrow
    simp only [get_voxel_grid_points, List.mem_cons, List.not_mem_nil, or_false] at hrow
    have hx : (min_max_scale (meshX 1) xm xM).length = 1 := by
      simp only [min_max_scale, List.length_map]
      rw [length_meshX]
      norm_num
    have hy : (min_max_scale (meshY 1) ym yM).length = 1 := by
      simp only [min_max_scale, List.length_map]
      rw [length_meshY]
      norm_num
    have hz : (min_max_scale (meshZ 1) zm zM).length = 1 := by
      simp only [min_max_scale, List.length_map]
      rw [length_meshZ]
      norm_num
    rcases hrow with rfl | rfl | rfl | rfl
    · exact hx
    · exact hy
    · exact hz
    · rw [List.length_replicate]
      exact hx
  by_cases hz : ppms.zip masks = []
  · have hmin : min ppms.length masks.length = 0 := by
      rw [← List.length_zip, hz]
      rfl
    refine ⟨?_, ?_, rfl, hgrid⟩
    · simp [get_voxel_points_projection_is_in_images_mask, hz, rowCount, hmin]
    · simp [get_voxel_points_projection_is_in_images_mask, hz, isOkResult, hmin]
  · have hmin : 0 < min ppms.length masks.length := by
      have := List.length_pos.mpr hz
      rw [List.length_zip] at this
      omega
    refine ⟨?_, ?_, rfl, hgrid⟩
    · simp only [get_voxel_points_projection_is_in_images_mask]
      rw [if_neg (by simpa [List.isEmpty_iff] using hz)]
      simp [rowCount, List.length_zip]
    · simp only [get_voxel_points_projection_is_in_images_mask]
      rw [if_neg (by simpa [List.isEmpty_iff] using hz)]
      simp [isOkResult, hmin]

/-! Claim C9: frame effects of projection and voting. -/

theorem readA_append {σ : Store} {a : Mat} {i : ℕ} (hi : i < σ.length) :
    readA (σ ++ [a]) i = readA σ i := by
  unfold readA
  rw [List.getD_eq_getElem _ _ (by simp only [List.length_append]; omega),
    List.getD_eq_getElem _ _ hi]
  exact List.getElem_append_left hi

theorem readA_set_of_ne {σ : Store} {t : ℕ} {a : Mat} {i : ℕ} (h : i ≠ t) :
    readA (writeA σ t a) i = readA σ i := by
  unfold readA writeA
  simp only [List.getD_eq_getElem?_getD]
  rw [List.getElem?_set_ne (by omega)]

theorem frame_chain (σ : Store) (m d r : Mat) {i : ℕ} (hi : i < σ.length) :
    readA (writeA (σ ++ [m]) σ.length d ++ [r]) i = readA σ i := by
  have h1 : i < (writeA (σ ++ [m]) σ.length d).length := by
    unfold writeA
    simp only [List.length_set, List.length_append]
    omega
  rw [readA_append h1, readA_set_of_ne (by omega), readA_append hi]

theorem frame_chain_length (σ : Store) (m d r : Mat) :
    (writeA (σ ++ [m]) σ.length d ++ [r]).length = σ.length + 2 := by
  unfold writeA
  simp

theorem get_pixel_points_prog_frame (σ : Store) (ppm : Mat) (g : ℕ) :
    (get_pixel_points_prog σ ppm g).1.length = σ.length + 2 ∧
    ∀ i < σ.length, readA (get_pixel_points_prog σ ppm g).1 i = readA σ i :=
  ⟨frame_chain_length σ _ _ _, fun _ hi => frame_chain σ _ _ _ hi⟩

theorem vote_step_chain (τ : Store) (z w : Mat) {i : ℕ} (hi : i < τ.length) :
    readA (writeA (τ ++ [z]) τ.length w) i = readA τ i := by
  have h1 : i < (τ ++ [z]).length := by
    simp only [List.length_append]
    omega
  rw [readA_set_of_ne (by omega), readA_append hi]

theorem vote_prog_step_frame (σ : Store) (g : ℕ) (ppm : Mat) (m : ℕ) :
    σ.length ≤ (vote_prog_step σ g ppm m).1.length ∧
    ∀ i < σ.length, readA (vote_prog_step σ g ppm m).1 i = readA σ i := by
  obtain ⟨hlen, hread⟩ := get_pixel_points_prog_frame σ ppm g
  have hslen : (vote_prog_step σ g ppm m).1.length
      = (get_pixel_points_prog σ ppm g).1.length + 1 := by
    unfold vote_prog_step allocA writeA
    simp
  constructor
  · omega
  · intro i hi
    have h2 : i < (get_pixel_points_prog σ ppm g).1.length := by omega
    exact (vote_step_chain (get_pixel_points_prog σ ppm g).1 _ _ h2).trans (hread i hi)

theorem voter_fold_frame (g : ℕ) (l : List (Mat × ℕ)) :
    ∀ (σ : Store) (acc : List ℕ),
      σ.length ≤ ((l.foldl (fun acc2 pm =>
        let st := vote_prog_step acc2.1 g pm.1 pm.2
        (st.1, acc2.2 ++ [st.2])) (σ, acc)).1).length ∧
      ∀ i < σ.length,
        readA ((l.foldl (fun acc2 pm =>
          let st := vote_prog_step acc2.1 g pm.1 pm.2
          (st.1, acc2.2 ++ [st.2])) (σ, acc)).1) i = readA σ i := by
  induction l with
  | nil =>
    intro σ acc
    exact ⟨le_refl _, fun _ _ => rfl⟩
  | cons pm l ih =>
    intro σ acc
    simp only [List.foldl_cons]
    obtain ⟨hsl, hsr⟩ := vote_prog_step_frame σ g pm.1 pm.2
    obtain ⟨hil, hir⟩ := ih (vote_prog_step σ g pm.1 pm.2).1
      (acc ++ [(vote_prog_step σ g pm.1 pm.2).2])
    constructor
    · exact le_trans hsl hil
    · intro i hi
      exact (hir i (lt_of_lt_of_le hi hsl)).trans (hsr i hi)

theorem voter_prog_frame (σ : Store) (maskIds : List ℕ) (ppms : List Mat) (g : ℕ) :
    σ.length ≤ (voter_prog σ maskIds ppms g).1.length ∧
    ∀ i < σ.length, readA (voter_prog σ maskIds ppms g).1 i = readA σ i :=
  voter_fold_frame g (ppms.zip maskIds) σ []

theorem voter_prog_iter_frame (maskIds : List ℕ) (ppms : List Mat) (g : ℕ) :
    ∀ (n : ℕ) (σ : Store), σ.length ≤ (voter_prog_iter maskIds ppms g n σ).length ∧
      ∀ i < σ.length, readA (voter_prog_iter maskIds ppms g n σ) i = readA σ i := by
  intro n
  induction n with
  | zero =>
    intro σ
    exact ⟨le_refl _, fun _ _ => rfl⟩
  | succ n ih =>
    intro σ
    obtain ⟨hl, hr⟩ := voter_prog_frame σ maskIds ppms g
    obtain ⟨hl2, hr2⟩ := ih (voter_prog σ maskIds ppms g).1
    constructor
    · exact le_trans hl hl2
    · intro i hi
      exact (hr2 i (lt_of_lt_of_le hi hl)).trans (hr i hi)

/-- Claim C9: in the stateful embedding, the projection call and any number
of voter calls mutate only arrays they freshly allocate: every store cell
that existed before (in particular the voxel grid and every silhouette mask)
reads back unchanged afterwards. -/
theorem C9_projection_voting_frame (σ : Store) (ppm : Mat) (g : ℕ)
    (maskIds : List ℕ) (ppms : List Mat) {i : ℕ} (hi : i < σ.length) :
    readA (get_pixel_points_prog σ ppm g).1 i = readA σ i ∧
    ∀ n : ℕ, readA (voter_prog_iter maskIds ppms g n σ) i = readA σ i :=
  ⟨(get_pixel_points_prog_frame σ ppm g).2 i hi,
   fun n => (voter_prog_iter_frame maskIds ppms g n σ).2 i hi⟩

/-- Witness for C9 on a one-cell store. -/
theorem C9_projection_voting_frame_witness :
    0 < ([[[5]]] : Store).length ∧
    (readA (get_pixel_points_prog [[[5]]] [[1]] 0).1 0 = readA [[[5]]] 0 ∧
     ∀ n : ℕ,
       readA (voter_prog_iter [0] [[[1,0,0,0],[0,1,0,0],[0,0,1,0]]] 0 n [[[5]]]) 0
         = readA [[[5]]] 0) :=
  ⟨by norm_num,
   C9_projection_voting_frame [[[5]]] [[1]] 0 [0]
     [[[1,0,0,0],[0,1,0,0],[0,0,1,0]]] (by norm_num)⟩

/-! Claim C10: the crop/pad pair restores the original dimensions. -/

/-- Claim C10: for a non-empty list of equally sized `H×W` images and crop
offsets with `top + bottom ≤ H` and `left + right ≤ W`, cropping and then
padding back with the same offsets yields images whose height and width (both
the shape field and every row length) equal the original `H` and `W`. -/
theorem C10_crop_pad_roundtrip (images : List ImgA) (H W : ℕ)
    (top bottom left right : ℕ) (hne : images ≠ [])
    (hdims : ∀ img ∈ images,
      img.2.length = H ∧ img.1 = W ∧ ∀ row ∈ img.2, row.length = W)
    (htb : top + bottom ≤ H) (hlr : left + right ≤ W) :
    ∀ img' ∈ get_images_to_original_dimensions
        (get_cropped_images images top bottom left right) top bottom left right,
      img'.2.length = H ∧ img'.1 = W ∧ ∀ row ∈ img'.2, row.length = W := by
  obtain ⟨a, t, rfl⟩ := List.exists_cons_of_ne_nil hne
  obtain ⟨haH, haW, _⟩ := hdims a (by simp)
  intro img' himg'
  rw [get_images_to_original_dimensions] at himg'
  obtain ⟨c, hc, rfl⟩ := List.mem_map.mp himg'
  rw [get_cropped_images] at hc
  rw [if_neg (by simp)] at hc
  simp only [List.headD_cons] at hc
  obtain ⟨img, himg, rfl⟩ := List.mem_map.mp hc
  obtain ⟨hih, hiw, hirows⟩ := hdims img himg
  refine ⟨?_, ?_, ?_⟩
  · simp only [List.length_append, List.length_replicate, List.length_map,
      List.length_take, List.length_drop]
    rw [haH, hih]
    omega
  · simp only []
    rw [haW]
    omega
  · intro row hrow
    simp only [List.mem_append] at hrow
    rcases hrow with (hrow | hrow) | hrow
    · rw [List.eq_of_mem_replicate hrow, List.length_replicate]
      rw [haW]
      omega
    · obtain ⟨row', hrow', rfl⟩ := List.mem_map.mp hrow
      obtain ⟨row0, hrow0, rfl⟩ := List.mem_map.mp hrow'
      have hmem : row0 ∈ img.2 :=
        (List.drop_sublist top img.2).subset
          ((List.take_sublist _ _).subset hrow0)
      have hr0 : row0.length = W := hirows row0 hmem
      simp only [List.length_append, List.length_replicate, List.length_take,
        List.length_drop]
      rw [hr0, haW]
      omega
    · rw [List.eq_of_mem_replicate hrow, List.length_replicate]
      rw [haW]
      omega

/-- Witness for C10 on a single 2×2 image with offsets 1,0,0,1. -/
theorem C10_crop_pad_roundtrip_witness :
    (([((2 : ℕ), [[[1,1,1],[2,2,2]],[[3,3,3],[4,4,4]]])] : List ImgA) ≠ [] ∧
      (1 + 0 ≤ 2 ∧ 0 + 1 ≤ 2)) ∧
    (∀ img' ∈ get_images_to_original_dimensions
        (get_cropped_images [((2 : ℕ), [[[1,1,1],[2,2,2]],[[3,3,3],[4,4,4]]])] 1 0 0 1)
        1 0 0 1,
      img'.2.length = 2 ∧ img'.1 = 2 ∧ ∀ row ∈ img'.2, row.length = 2) := by
  have hne : ([((2 : ℕ), [[[1,1,1],[2,2,2]],[[3,3,3],[4,4,4]]])] : List ImgA) ≠ [] := by
    simp
  have hdims : ∀ img ∈ ([((2 : ℕ), [[[1,1,1],[2,2,2]],[[3,3,3],[4,4,4]]])] : List ImgA),
      img.2.length = 2 ∧ img.1 = 2 ∧ ∀ row ∈ img.2, row.length = 2 := by
    intro img himg
    rcases List.mem_cons.mp himg with rfl | himg
    · refine ⟨rfl, rfl, ?_⟩
      intro row hrow
      rcases List.mem_cons.mp hrow with rfl | hrow
      · rfl
      rcases List.mem_cons.mp hrow with rfl | hrow
      · rfl
      · cases hrow
    · cases himg
  exact ⟨⟨hne, by omega, by omega⟩,
    C10_crop_pad_roundtrip _ 2 2 1 0 0 1 hne hdims (by omega) (by omega)⟩

end Voxel
